import Mathlib

/-!
Verification of the script-to-audio synthesis pipeline of the
ai-podcast-generation repository (`src/podcast/text_to_speech.py`).

Strings manipulated by the Python code are embedded as `List Char`;
each Python string primitive used by the pipeline (strip, replace,
split, endswith) is given a faithful Lean counterpart, and the
pipeline's functions are translated from the source line by line.
-/

/-- Whitespace characters as recognised by Python's `str.strip`, `str.split`
and the regex class `\s` (restricted to the ASCII range actually exercised
by the pipeline). -/
def pySpaceChar (c : Char) : Bool :=
  c = ' ' || c = '\t' || c = '\n' || c = '\r' || c = '\x0b' || c = '\x0c'

/-- Sentence-terminal punctuation, the class `[.!?]` used throughout
`text_to_speech.py`. -/
def isTerm (c : Char) : Bool :=
  c = '.' || c = '!' || c = '?'

/-- Python `s.strip()`: remove leading and trailing whitespace. -/
def pyStrip (s : List Char) : List Char :=
  ((s.dropWhile pySpaceChar).reverse.dropWhile pySpaceChar).reverse

/-- Python `s.replace(pat, rep)` for a non-empty pattern: left-to-right,
non-overlapping replacement of every occurrence of `pat` by `rep`. -/
def pyReplace (pat rep : List Char) : List Char → List Char
  | [] => []
  | c :: rest =>
    if pat.isPrefixOf (c :: rest) ∧ pat ≠ [] then
      rep ++ pyReplace pat rep (rest.drop (pat.length - 1))
    else
      c :: pyReplace pat rep rest
termination_by l => l.length
decreasing_by
· simp only [List.length_drop, List.length_cons]
  omega
· simp only [List.length_cons]
  omega

/-- Python `s.endswith(('.', '!', '?'))`: the last character is
sentence-terminal punctuation. -/
def endsWithTerm (s : List Char) : Bool :=
  match s.getLast? with
  | some c => isTerm c
  | none => false

/-- Embedding of `PodcastTTSGenerator._clean_text_for_tts`
(`text_to_speech.py` lines 182-192): strip, collapse `...` to `.`,
`!!` to `!`, `??` to `?`, then append `.` if the result does not end
in sentence-terminal punctuation. -/
def clean_text_for_tts (text : List Char) : List Char :=
  let t1 := pyStrip text
  let t2 := pyReplace ['.', '.', '.'] ['.'] t1
  let t3 := pyReplace ['!', '!'] ['!'] t2
  let t4 := pyReplace ['?', '?'] ['?'] t3
  if endsWithTerm t4 then t4 else t4 ++ ['.']

/-- Scanner for `re.split` with the pattern `[.!?]+\s+` (line 320 of
`text_to_speech.py`), as a character-by-character state machine. A
separator match starts at a sentence-terminal character, consumes the whole
terminal run greedily, and requires at least one following whitespace
character, also consumed greedily; a terminal run not followed by
whitespace matches nowhere inside the run and stays literal text.
`pieceRev` is the current piece in reverse; `termRev` is a pending
sentence-terminal run in reverse (non-empty exactly while the scanner sits
just after terminal characters whose fate is undecided); `skipWs` is true
while the scanner is consuming the whitespace tail of a confirmed
separator. -/
def reSplitScan : List Char → List Char → List Char → Bool → List (List Char)
  | [], pieceRev, termRev, _ => [(termRev ++ pieceRev).reverse]
  | c :: rest, pieceRev, termRev, skipWs =>
    if skipWs && pySpaceChar c then
      reSplitScan rest pieceRev termRev true
    else if isTerm c then
      reSplitScan rest pieceRev (c :: termRev) false
    else if termRev ≠ [] then
      if pySpaceChar c then
        pieceRev.reverse :: reSplitScan rest [] [] true
      else
        reSplitScan rest (c :: (termRev ++ pieceRev)) [] false
    else
      reSplitScan rest (c :: pieceRev) [] false

/-- Embedding of `re.split(r'[.!?]+\s+', text)` as used at line 320. -/
def reSplitSentences (text : List Char) : List (List Char) :=
  reSplitScan text [] [] false

/-- The per-sentence normalisation of the first loop of
`_split_text_into_phases`: strip, then append `.` when the sentence does
not already end in terminal punctuation (lines 326-331). -/
def normSentence (s : List Char) : List Char :=
  let s1 := pyStrip s
  if endsWithTerm s1 then s1 else s1 ++ ['.']

/-- First stage of `_split_text_into_phases` (lines 322-340): greedily
accumulate normalised sentences into phases; close the current phase when
adding the next sentence would push the raw length sum past
`max_chars_per_phase` and the current phase is non-empty. -/
def accumPhases (maxChars : Nat) : List (List Char) → List Char → List (List Char)
  | [], current => if pyStrip current ≠ [] then [pyStrip current] else []
  | s :: rest, current =>
    if pyStrip s = [] then
      accumPhases maxChars rest current
    else
      let s2 := normSentence s
      if current.length + s2.length > maxChars ∧ current ≠ [] then
        pyStrip current :: accumPhases maxChars rest s2
      else
        accumPhases maxChars rest (if current = [] then s2 else current ++ ' ' :: s2)

/-- Scanner for Python `phase.split()` (line 346): collect the maximal
whitespace-free runs of the string, in order. `wordRev` is the current run
in reverse. -/
def pySplitScan : List Char → List Char → List (List Char)
  | [], wordRev => if wordRev = [] then [] else [wordRev.reverse]
  | c :: rest, wordRev =>
    if pySpaceChar c then
      if wordRev = [] then pySplitScan rest []
      else wordRev.reverse :: pySplitScan rest []
    else
      pySplitScan rest (c :: wordRev)

/-- Python `phase.split()` (line 346): the maximal whitespace-free runs of
the string, in order. -/
def pySplit (s : List Char) : List (List Char) :=
  pySplitScan s []

/-- Second stage of `_split_text_into_phases` (lines 346-356): regroup the
words of an over-long phase into chunks, closing the current chunk when
`len(current_chunk) + len(word) + 1` would exceed the bound. -/
def wordChunks (maxChars : Nat) : List (List Char) → List Char → List (List Char)
  | [], chunk => if pyStrip chunk ≠ [] then [pyStrip chunk] else []
  | w :: rest, chunk =>
    if chunk.length + w.length + 1 > maxChars ∧ chunk ≠ [] then
      pyStrip chunk :: wordChunks maxChars rest w
    else
      wordChunks maxChars rest (if chunk = [] then w else chunk ++ ' ' :: w)

/-- Final pass of `_split_text_into_phases` (lines 343-358): a phase longer
than `max_chars_per_phase * 1.5` (as integers: `2 * len > 3 * max`) is
word-split; any other phase passes through unchanged. -/
def finalizePhases (maxChars : Nat) (phases : List (List Char)) : List (List Char) :=
  phases.flatMap fun phase =>
    if 2 * phase.length > 3 * maxChars then
      wordChunks maxChars (pySplit phase) []
    else
      [phase]

/-- Embedding of `ChatterboxTTSGenerator._split_text_into_phases`
(`text_to_speech.py` lines 318-360). -/
def split_text_into_phases (maxChars : Nat) (text : List Char) : List (List Char) :=
  finalizePhases maxChars (accumPhases maxChars (reSplitSentences text) [])

/-- A character that is neither whitespace nor sentence-terminal
punctuation: the "sentence content" left once all the separator characters
the splitter manipulates are ignored. -/
def keepChar (c : Char) : Bool :=
  !(pySpaceChar c || isTerm c)

/-- Erase every separator character (whitespace and `[.!?]`), keeping the
sentence content of a string. -/
def eraseSep (s : List Char) : List Char :=
  s.filter keepChar

/-- The `AudioSegment` dataclass of `text_to_speech.py` (lines 47-54).
Waveform samples are embedded as lists of rationals. -/
structure AudioSegment where
  speaker : String
  text : String
  audio_data : List ℚ
  duration : ℚ
  file_path : String
deriving DecidableEq

/-- Python `os.path.join(a, b)` for the two-argument posix case used by the
pipeline. -/
def os_path_join (a b : String) : String :=
  if b.startsWith "/" then b
  else if a = "" then b
  else if a.endsWith "/" then a ++ b
  else a ++ "/" ++ b

/-- Python `f"{n:03d}"`: decimal rendering zero-padded to width 3. -/
def pad3 (n : Nat) : String :=
  if n < 10 then "00" ++ toString n
  else if n < 100 then "0" ++ toString n
  else toString n

/-- Python `speaker.replace(' ', '_').lower()` (lines 96 and 431). -/
def speaker_tag (speaker : String) : String :=
  String.mk ((speaker.toList.map fun c => if c = ' ' then '_' else c).map
    Char.toLower)

/-- The per-line segment filename
`f"segment_{i+1:03d}_{speaker.replace(' ', '_').lower()}.wav"`
(lines 96 and 431), with `i` the 0-based line index. -/
def segment_filename (i : Nat) (speaker : String) : String :=
  "segment_" ++ pad3 (i + 1) ++ "_" ++ speaker_tag speaker ++ ".wav"

/-- The `combined_audio` list built by `_combine_audio_segments`
(lines 208-213 and 475-480): each segment's samples, with `gap` inserted
after every segment except the last. -/
def combine_list (gap : List ℚ) : List AudioSegment → List (List ℚ)
  | [] => []
  | [s] => [s.audio_data]
  | s :: rest => s.audio_data :: gap :: combine_list gap rest

/-- Embedding of `_combine_audio_segments` (lines 194-228 and 460-495),
parameterised by the engine-specific silence-gap length in samples
(`int(0.2 * 24000) = 4800` for the fixed-voice engine,
`int(0.5 * sr)` for the voice-cloning engine). Returns the combined
waveform and the written path; `none` models the `ValueError` that
`np.concatenate` raises on an empty segment list, which the function
re-raises. -/
def combine_audio_segments (pauseSamples : Nat) (segments : List AudioSegment)
    (output_dir : String) : Option (List ℚ × String) :=
  match segments with
  | [] => none
  | _ :: _ =>
    some ((combine_list (List.replicate pauseSamples 0) segments).flatten,
      os_path_join output_dir "complete_podcast.wav")

/-- The per-line loop of `generate_podcast_audio` (lines 89-116 and
387-451), with the synthesis of one line abstracted as an oracle
`line_synth : dialogue → Option waveform` (`none` models a raised
exception, caught by the per-line `except`). Returns the
`audio_segments` and `output_files` accumulators; `i` is the 0-based
index of the first line of `script`. -/
def gen_segments (line_synth : String → Option (List ℚ)) (output_dir : String)
    (combine : Bool) (sr : ℚ) : Nat → List (String × String) →
    List AudioSegment × List String
  | _, [] => ([], [])
  | i, (speaker, dialogue) :: rest =>
    match line_synth dialogue with
    | some wav =>
      let path := os_path_join output_dir (segment_filename i speaker)
      let res := gen_segments line_synth output_dir combine sr (i + 1) rest
      (if combine then
        ⟨speaker, dialogue, wav, wav.length / sr, path⟩ :: res.1
      else res.1,
       path :: res.2)
    | none => gen_segments line_synth output_dir combine sr (i + 1) rest

/-- Embedding of `generate_podcast_audio` (lines 74-123 and 362-458),
common to both engines: run the per-line loop; when `combine_audio` is
set and at least one segment succeeded, append the combined-podcast path
last. `none` models an uncaught exception escaping the whole call. -/
def generate_podcast_audio (line_synth : String → Option (List ℚ))
    (pauseSamples : Nat) (sr : ℚ) (script : List (String × String))
    (output_dir : String) (combine : Bool) : Option (List String) :=
  let res := gen_segments line_synth output_dir combine sr 0 script
  if combine ∧ res.1 ≠ [] then
    match combine_audio_segments pauseSamples res.1 output_dir with
    | some pr => some (res.2 ++ [pr.2])
    | none => none
  else
    some res.2

/-- The per-line segment paths in script order, as the specification
describes them: one path per narration line, derived from the 0-based
index (starting at `i`) and the speaker label. -/
def expected_segment_paths (output_dir : String) :
    Nat → List (String × String) → List String
  | _, [] => []
  | i, (speaker, _) :: rest =>
    os_path_join output_dir (segment_filename i speaker) ::
      expected_segment_paths output_dir (i + 1) rest

/-- The segment paths of exactly the lines whose synthesis succeeds, in
script order, as the specification describes partial-failure semantics. -/
def successful_segment_paths (line_synth : String → Option (List ℚ))
    (output_dir : String) : Nat → List (String × String) → List String
  | _, [] => []
  | i, (speaker, dialogue) :: rest =>
    if (line_synth dialogue).isSome then
      os_path_join output_dir (segment_filename i speaker) ::
        successful_segment_paths line_synth output_dir (i + 1) rest
    else
      successful_segment_paths line_synth output_dir (i + 1) rest

/-- The reference-audio state of `ChatterboxTTSGenerator`
(`self.reference_audio_path`, line 277): `none` until a reference clip is
set. -/
structure ChatterboxState where
  reference_audio_path : Option String
deriving DecidableEq

/-- Embedding of `ChatterboxTTSGenerator.set_reference_audio` (lines
305-316), with the filesystem abstracted as an existence predicate. The
first component is the raised `FileNotFoundError` message (`none` when no
error is raised); the second is the generator state after the call, which
the raising path leaves untouched. -/
def set_reference_audio (fileExists : String → Bool) (audio_path : String)
    (st : ChatterboxState) : Option String × ChatterboxState :=
  if !(fileExists audio_path) then
    (some ("Reference audio not found: " ++ audio_path), st)
  else
    (none, { st with reference_audio_path := some audio_path })

/-- The two states `torch.load` can be in: the library original, or the
`patched_torch_load` closure installed by `_apply_device_fixes` for a
given device (lines 292-297). -/
inductive TorchLoadFn where
  | original
  | patched (device : String)
deriving DecidableEq

/-- Embedding of `_apply_device_fixes` (lines 288-298): save the current
`torch.load` into `self.original_torch_load` (first component) and install
the device-remapping patch (second component, the new `torch.load`). -/
def apply_device_fixes (device : String) (torch_load : TorchLoadFn) :
    Option TorchLoadFn × TorchLoadFn :=
  (some torch_load, TorchLoadFn.patched device)

/-- Embedding of `_restore_torch_load` (lines 300-303): put back the saved
`torch.load` when one was saved, else leave `torch.load` as it is. -/
def restore_torch_load (saved : Option TorchLoadFn)
    (torch_load : TorchLoadFn) : TorchLoadFn :=
  match saved with
  | some t => t
  | none => torch_load

/-- The outcome of `ChatterboxTTSGenerator.__init__` together with the
final value of the global `torch.load`. `outcome` is `ok (model, device)`
on success and `error ()` when construction raises. -/
structure ChatterboxInitResult (μ : Type) where
  outcome : Except Unit (μ × String)
  torch_load_after : TorchLoadFn

/-- Embedding of the load part of `ChatterboxTTSGenerator.__init__`
(lines 256-274): apply the device fixes, try
`ChatterboxTTS.from_pretrained` (abstracted as an oracle returning `none`
when the load raises) on the resolved device, on failure retry once on
`"cpu"` unless the resolved device already is `"cpu"`, re-raising when the
retry also fails or no retry is allowed; the `finally` block restores
`torch.load` on every path. -/
def chatterbox_init {μ : Type} (from_pretrained : String → Option μ)
    (device : String) (torch_load0 : TorchLoadFn) : ChatterboxInitResult μ :=
  let fixes := apply_device_fixes device torch_load0
  let outcome : Except Unit (μ × String) :=
    match from_pretrained device with
    | some m => Except.ok (m, device)
    | none =>
      if device ≠ "cpu" then
        match from_pretrained "cpu" with
        | some m => Except.ok (m, "cpu")
        | none => Except.error ()
      else Except.error ()
  { outcome := outcome, torch_load_after := restore_torch_load fixes.1 fixes.2 }

theorem pyReplace_nil (pat rep : List Char) : pyReplace pat rep [] = [] := by
  simp [pyReplace]

theorem pyStrip_of_all_space (s : List Char) (h : ∀ c ∈ s, pySpaceChar c = true) :
    pyStrip s = [] := by
  unfold pyStrip
  have h1 : s.dropWhile pySpaceChar = [] := List.dropWhile_eq_nil_iff.mpr h
  rw [h1]
  simp

/-- Claim C4: for every input string, `_clean_text_for_tts` returns a string
whose last character is one of `.`, `!`, `?`. -/
theorem clean_text_ends_terminal (text : List Char) :
    endsWithTerm (clean_text_for_tts text) = true := by
  unfold clean_text_for_tts
  set t4 := pyReplace ['?', '?'] ['?']
    (pyReplace ['!', '!'] ['!'] (pyReplace ['.', '.', '.'] ['.'] (pyStrip text))) with ht4
  by_cases h : endsWithTerm t4 = true
  · simp [h]
  · simp only [h, if_neg]
    simp only [Bool.not_eq_true] at h
    simp [h, endsWithTerm, List.getLast?_concat, isTerm]

/-- Claim C10: `_clean_text_for_tts` is total and maps every whitespace-only
(including empty) input to the single-character string `"."`. -/
theorem clean_text_whitespace_only (text : List Char)
    (h : ∀ c ∈ text, pySpaceChar c = true) :
    clean_text_for_tts text = ['.'] := by
  unfold clean_text_for_tts
  rw [pyStrip_of_all_space text h]
  simp [pyReplace_nil, endsWithTerm]

/-- Witness for C10 at the concrete whitespace-only input consisting of one
space character. -/
theorem clean_text_whitespace_only_witness :
    (∀ c ∈ [' '], pySpaceChar c = true) ∧ clean_text_for_tts [' '] = ['.'] :=
  ⟨by decide, clean_text_whitespace_only [' '] (by decide)⟩

theorem mem_pyStrip {a : Char} {s : List Char} (h : a ∈ pyStrip s) : a ∈ s := by
  unfold pyStrip at h
  simp only [List.mem_reverse] at h
  have h2 := (List.dropWhile_sublist pySpaceChar).subset h
  simp only [List.mem_reverse] at h2
  exact (List.dropWhile_sublist pySpaceChar).subset h2

theorem length_pyStrip_le (s : List Char) : (pyStrip s).length ≤ s.length := by
  unfold pyStrip
  simp only [List.length_reverse]
  calc ((s.dropWhile pySpaceChar).reverse.dropWhile pySpaceChar).length
      ≤ (s.dropWhile pySpaceChar).reverse.length :=
        (List.dropWhile_sublist pySpaceChar).length_le
    _ = (s.dropWhile pySpaceChar).length := List.length_reverse _
    _ ≤ s.length := (List.dropWhile_sublist pySpaceChar).length_le

theorem pySplitScan_noSpace (s : List Char) : ∀ (wordRev : List Char),
    (∀ c ∈ wordRev, pySpaceChar c = false) →
    ∀ w ∈ pySplitScan s wordRev, ∀ c ∈ w, pySpaceChar c = false := by
  induction s with
  | nil =>
    intro wordRev hwr w hw
    rw [pySplitScan] at hw
    by_cases h : wordRev = []
    · simp [h] at hw
    · rw [if_neg h] at hw
      rcases List.mem_singleton.mp hw with rfl
      intro c hc
      exact hwr c (List.mem_reverse.mp hc)
  | cons c rest ih =>
    intro wordRev hwr w hw
    rw [pySplitScan] at hw
    by_cases hsp : pySpaceChar c
    · rw [if_pos hsp] at hw
      by_cases h : wordRev = []
      · rw [if_pos h] at hw
        exact ih [] (by simp) w hw
      · rw [if_neg h] at hw
        rcases List.mem_cons.mp hw with rfl | hmem
        · intro x hx
          exact hwr x (List.mem_reverse.mp hx)
        · exact ih [] (by simp) w hmem
    · rw [if_neg hsp] at hw
      refine ih (c :: wordRev) ?_ w hw
      intro x hx
      rcases List.mem_cons.mp hx with rfl | hx2
      · exact Bool.eq_false_iff.mpr hsp
      · exact hwr x hx2

theorem pySplit_noSpace (s : List Char) :
    ∀ w ∈ pySplit s, ∀ c ∈ w, pySpaceChar c = false :=
  pySplitScan_noSpace s [] (by simp)

theorem wordChunks_bound (m : Nat) : ∀ (ws : List (List Char)) (chunk : List Char),
    (∀ w ∈ ws, ∀ c ∈ w, pySpaceChar c = false) →
    (chunk = [] ∨ (∀ c ∈ chunk, pySpaceChar c = false) ∨ chunk.length ≤ m) →
    ∀ p ∈ wordChunks m ws chunk,
      (∀ c ∈ p, pySpaceChar c = false) ∨ p.length ≤ m := by
  intro ws
  induction ws with
  | nil =>
    intro chunk _ hinv p hp
    rw [wordChunks] at hp
    by_cases hne : pyStrip chunk ≠ []
    · rw [if_pos hne] at hp
      rcases List.mem_singleton.mp hp with rfl
      rcases hinv with rfl | hns | hlen
      · simp [pyStrip] at hne
      · exact Or.inl fun c hc => hns c (mem_pyStrip hc)
      · exact Or.inr (le_trans (length_pyStrip_le chunk) hlen)
    · rw [if_neg hne] at hp
      simp at hp
  | cons w rest ih =>
    intro chunk hws hinv p hp
    have hw : ∀ c ∈ w, pySpaceChar c = false := hws w (List.mem_cons_self w rest)
    have hrest : ∀ v ∈ rest, ∀ c ∈ v, pySpaceChar c = false :=
      fun v hv => hws v (List.mem_cons_of_mem w hv)
    rw [wordChunks] at hp
    by_cases hclose : chunk.length + w.length + 1 > m ∧ chunk ≠ []
    · rw [if_pos hclose] at hp
      rcases List.mem_cons.mp hp with rfl | hmem
      · rcases hinv with rfl | hns | hlen
        · exact absurd rfl hclose.2
        · exact Or.inl fun c hc => hns c (mem_pyStrip hc)
        · exact Or.inr (le_trans (length_pyStrip_le chunk) hlen)
      · exact ih w hrest (Or.inr (Or.inl hw)) p hmem
    · rw [if_neg hclose] at hp
      by_cases hemp : chunk = []
      · rw [if_pos hemp] at hp
        exact ih w hrest (Or.inr (Or.inl hw)) p hp
      · rw [if_neg hemp] at hp
        apply ih (chunk ++ ' ' :: w) hrest _ p hp
        right; right
        have hA : ¬ chunk.length + w.length + 1 > m := fun hA => hclose ⟨hA, hemp⟩
        simp only [List.length_append, List.length_cons]
        omega

/-- Claim C2 (amended): every phase returned by `_split_text_into_phases`
has length at most `1.5 * max_chars` (as integers, `2 * len ≤ 3 * max`), or
has length at most `max_chars`, or contains no whitespace at all (a chunk
consisting of one overlong word). -/
theorem split_phase_bound (maxChars : Nat) (text : List Char) :
    ∀ p ∈ split_text_into_phases maxChars text,
      2 * p.length ≤ 3 * maxChars ∨ p.length ≤ maxChars ∨
        ∀ c ∈ p, pySpaceChar c = false := by
  intro p hp
  unfold split_text_into_phases finalizePhases at hp
  rcases List.mem_flatMap.mp hp with ⟨phase, _, hpin⟩
  by_cases hlong : 2 * phase.length > 3 * maxChars
  · rw [if_pos hlong] at hpin
    rcases wordChunks_bound maxChars (pySplit phase) []
        (pySplit_noSpace phase) (Or.inl rfl) p hpin with h | h
    · exact Or.inr (Or.inr h)
    · exact Or.inr (Or.inl h)
  · rw [if_neg hlong] at hpin
    rcases List.mem_singleton.mp hpin with rfl
    omega

/-- Witness for the amended C2 at a concrete input. -/
theorem split_phase_bound_witness :
    (('a' :: 'b' :: '.' :: ' ' :: 'c' :: '.' :: []) ∈
        split_text_into_phases 5 ('a' :: 'b' :: '.' :: ' ' :: 'c' :: '.' :: [])) ∧
    (2 * ('a' :: 'b' :: '.' :: ' ' :: 'c' :: '.' :: ([] : List Char)).length ≤ 3 * 5 ∨
      ('a' :: 'b' :: '.' :: ' ' :: 'c' :: '.' :: ([] : List Char)).length ≤ 5 ∨
      ∀ c ∈ ('a' :: 'b' :: '.' :: ' ' :: 'c' :: '.' :: ([] : List Char)),
        pySpaceChar c = false) :=
  ⟨by decide,
    split_phase_bound 5 ('a' :: 'b' :: '.' :: ' ' :: 'c' :: '.' :: [])
      ('a' :: 'b' :: '.' :: ' ' :: 'c' :: '.' :: []) (by decide)⟩

/-- Counterexample to C2 as stated: with `max_chars = 5`, the input
`"ab. c."` consists of two sentences, each (after the splitter's own
normalisation) of length at most `1.5 * max_chars`, yet the returned phase
`"ab. c."` has length `6 > max_chars`, because the greedy accumulation
check `len(current) + len(sentence) > max_chars` ignores the joining
space. -/
theorem split_phase_bound_cex :
    split_text_into_phases 5 ('a' :: 'b' :: '.' :: ' ' :: 'c' :: '.' :: []) =
      [('a' :: 'b' :: '.' :: ' ' :: 'c' :: '.' :: [])] ∧
    ¬ (∀ p ∈ split_text_into_phases 5 ('a' :: 'b' :: '.' :: ' ' :: 'c' :: '.' :: []),
        p.length ≤ 5) ∧
    (∀ s ∈ reSplitSentences ('a' :: 'b' :: '.' :: ' ' :: 'c' :: '.' :: []),
        2 * (normSentence s).length ≤ 3 * 5) := by
  refine ⟨by decide, ?_, by decide⟩
  intro h
  have := h ('a' :: 'b' :: '.' :: ' ' :: 'c' :: '.' :: []) (by decide)
  simp at this

theorem eraseSep_nil : eraseSep [] = [] := rfl

theorem eraseSep_append (a b : List Char) :
    eraseSep (a ++ b) = eraseSep a ++ eraseSep b :=
  List.filter_append a b

theorem eraseSep_single_cons (c : Char) (l : List Char) :
    eraseSep (c :: l) = eraseSep [c] ++ eraseSep l := by
  by_cases hk : keepChar c = true <;> simp [eraseSep, List.filter_cons, hk]

theorem eraseSep_reverse (l : List Char) :
    eraseSep l.reverse = (eraseSep l).reverse :=
  List.filter_reverse keepChar l

theorem eraseSep_space_cons {c : Char} (h : pySpaceChar c = true) (l : List Char) :
    eraseSep (c :: l) = eraseSep l := by
  simp [eraseSep, List.filter_cons, keepChar, h]

theorem eraseSep_term_cons {c : Char} (h : isTerm c = true) (l : List Char) :
    eraseSep (c :: l) = eraseSep l := by
  simp [eraseSep, List.filter_cons, keepChar, h]

theorem eraseSep_of_all_space (l : List Char) (h : ∀ c ∈ l, pySpaceChar c = true) :
    eraseSep l = [] := by
  refine List.filter_eq_nil_iff.mpr fun c hc => ?_
  simp [keepChar, h c hc]

theorem eraseSep_of_all_term (l : List Char) (h : ∀ c ∈ l, isTerm c = true) :
    eraseSep l = [] := by
  refine List.filter_eq_nil_iff.mpr fun c hc => ?_
  simp [keepChar, h c hc]

theorem eraseSep_dropWhile_space (l : List Char) :
    eraseSep (l.dropWhile pySpaceChar) = eraseSep l := by
  conv_rhs => rw [← List.takeWhile_append_dropWhile pySpaceChar l]
  rw [eraseSep_append,
    eraseSep_of_all_space _ (fun c hc => List.mem_takeWhile_imp hc)]
  simp

theorem eraseSep_pyStrip (s : List Char) : eraseSep (pyStrip s) = eraseSep s := by
  unfold pyStrip
  rw [eraseSep_reverse, eraseSep_dropWhile_space, eraseSep_reverse,
    List.reverse_reverse, eraseSep_dropWhile_space]

theorem eraseSep_normSentence (s : List Char) :
    eraseSep (normSentence s) = eraseSep s := by
  unfold normSentence
  by_cases h : endsWithTerm (pyStrip s)
  · rw [if_pos h, eraseSep_pyStrip]
  · rw [if_neg h, eraseSep_append, eraseSep_pyStrip,
      eraseSep_of_all_term ['.'] (by decide)]
    simp

theorem reSplitScan_content (s : List Char) : ∀ (pieceRev termRev : List Char)
    (skipWs : Bool), (∀ c ∈ termRev, isTerm c = true) →
    eraseSep (List.flatten (reSplitScan s pieceRev termRev skipWs)) =
      eraseSep pieceRev.reverse ++ eraseSep s := by
  induction s with
  | nil =>
    intro pieceRev termRev skipWs hterm
    rw [reSplitScan]
    simp only [List.flatten, List.append_nil, List.reverse_append]
    rw [eraseSep_append, eraseSep_reverse termRev,
      eraseSep_of_all_term termRev hterm]
    simp [eraseSep]
  | cons c rest ih =>
    intro pieceRev termRev skipWs hterm
    rw [reSplitScan]
    by_cases hskip : (skipWs && pySpaceChar c) = true
    · rw [if_pos hskip]
      rw [ih pieceRev termRev true hterm,
        eraseSep_space_cons (Bool.and_elim_right hskip)]
    · rw [if_neg hskip]
      by_cases hc : isTerm c = true
      · rw [if_pos hc]
        rw [ih pieceRev (c :: termRev) false ?_, eraseSep_term_cons hc]
        intro x hx
        rcases List.mem_cons.mp hx with rfl | hx2
        · exact hc
        · exact hterm x hx2
      · rw [if_neg hc]
        by_cases hne : termRev ≠ []
        · rw [if_pos hne]
          by_cases hsp : pySpaceChar c = true
          · rw [if_pos hsp]
            rw [List.flatten_cons, eraseSep_append,
              ih [] [] true (by simp), eraseSep_space_cons hsp]
            simp [eraseSep]
          · rw [if_neg hsp]
            rw [ih (c :: (termRev ++ pieceRev)) [] false (by simp)]
            simp only [List.reverse_cons, List.reverse_append]
            rw [eraseSep_append, eraseSep_append, eraseSep_reverse termRev,
              eraseSep_of_all_term termRev hterm]
            have hkeep : keepChar c = true := by
              simp [keepChar, hsp, hc]
            simp [eraseSep, List.filter_cons, hkeep]
        · rw [if_neg hne]
          rw [ih (c :: pieceRev) [] false (by simp)]
          simp only [List.reverse_cons]
          rw [eraseSep_append]
          by_cases hsp : pySpaceChar c = true
          · rw [eraseSep_of_all_space [c] (by simp [hsp]),
              eraseSep_space_cons hsp]
            simp
          · have hkeep : keepChar c = true := by
              simp [keepChar, hsp, hc]
            simp [eraseSep, List.filter_cons, hkeep]

theorem reSplitSentences_content (text : List Char) :
    eraseSep (List.flatten (reSplitSentences text)) = eraseSep text := by
  unfold reSplitSentences
  rw [reSplitScan_content text [] [] false (by simp)]
  simp [eraseSep]

theorem pySplitScan_content (s : List Char) : ∀ (wordRev : List Char),
    eraseSep (List.flatten (pySplitScan s wordRev)) =
      eraseSep wordRev.reverse ++ eraseSep s := by
  induction s with
  | nil =>
    intro wordRev
    rw [pySplitScan]
    by_cases h : wordRev = []
    · subst h; simp [eraseSep_nil]
    · rw [if_neg h]
      simp [eraseSep_nil]
  | cons c rest ih =>
    intro wordRev
    rw [pySplitScan]
    by_cases hsp : pySpaceChar c
    · rw [if_pos hsp, eraseSep_space_cons hsp]
      by_cases h : wordRev = []
      · subst h
        rw [if_pos rfl, ih []]
      · rw [if_neg h, List.flatten_cons, eraseSep_append, ih []]
        simp [eraseSep_nil]
    · rw [if_neg hsp, ih (c :: wordRev)]
      simp only [List.reverse_cons]
      rw [eraseSep_append, eraseSep_single_cons c rest, List.append_assoc]

theorem pySplit_content (s : List Char) :
    eraseSep (List.flatten (pySplit s)) = eraseSep s := by
  unfold pySplit
  rw [pySplitScan_content s []]
  simp [eraseSep]

theorem wordChunks_content (m : Nat) : ∀ (ws : List (List Char)) (chunk : List Char),
    eraseSep (List.flatten (wordChunks m ws chunk)) =
      eraseSep chunk ++ eraseSep (List.flatten ws) := by
  intro ws
  induction ws with
  | nil =>
    intro chunk
    rw [wordChunks]
    by_cases h : pyStrip chunk ≠ []
    · rw [if_pos h]
      simp [eraseSep_pyStrip, eraseSep_nil]
    · rw [if_neg h]
      push_neg at h
      have h2 : eraseSep chunk = [] := by
        rw [← eraseSep_pyStrip, h]; rfl
      simp [h2, eraseSep_nil]
  | cons w rest ih =>
    intro chunk
    rw [wordChunks]
    by_cases hclose : chunk.length + w.length + 1 > m ∧ chunk ≠ []
    · rw [if_pos hclose, List.flatten_cons, eraseSep_append, ih w,
        eraseSep_pyStrip]
      simp [List.flatten_cons, eraseSep_append]
    · rw [if_neg hclose]
      by_cases hemp : chunk = []
      · rw [if_pos hemp, ih w]
        subst hemp
        simp [List.flatten_cons, eraseSep_append, eraseSep_nil]
      · rw [if_neg hemp, ih (chunk ++ ' ' :: w)]
        rw [show chunk ++ ' ' :: w = chunk ++ [' '] ++ w by simp]
        rw [eraseSep_append, eraseSep_append,
          eraseSep_of_all_space [' '] (by decide)]
        simp [List.flatten_cons, eraseSep_append]

theorem accumPhases_content (m : Nat) : ∀ (sents : List (List Char))
    (current : List Char),
    eraseSep (List.flatten (accumPhases m sents current)) =
      eraseSep current ++ eraseSep (List.flatten sents) := by
  intro sents
  induction sents with
  | nil =>
    intro current
    rw [accumPhases]
    by_cases h : pyStrip current ≠ []
    · rw [if_pos h]
      simp [eraseSep_pyStrip, eraseSep_nil]
    · rw [if_neg h]
      push_neg at h
      have h2 : eraseSep current = [] := by
        rw [← eraseSep_pyStrip, h]; rfl
      simp [h2, eraseSep_nil]
  | cons s rest ih =>
    intro current
    rw [accumPhases]
    by_cases hemp : pyStrip s = []
    · rw [if_pos hemp, ih current]
      have hs : eraseSep s = [] := by
        rw [← eraseSep_pyStrip, hemp]; rfl
      simp [List.flatten_cons, eraseSep_append, hs]
    · rw [if_neg hemp]
      by_cases hclose : current.length + (normSentence s).length > m ∧ current ≠ []
      · rw [if_pos hclose, List.flatten_cons, eraseSep_append,
          ih (normSentence s), eraseSep_pyStrip, eraseSep_normSentence]
        simp [List.flatten_cons, eraseSep_append]
      · rw [if_neg hclose]
        by_cases hcur : current = []
        · rw [if_pos hcur, ih (normSentence s)]
          subst hcur
          simp [List.flatten_cons, eraseSep_append, eraseSep_normSentence,
            eraseSep_nil]
        · rw [if_neg hcur, ih (current ++ ' ' :: normSentence s)]
          rw [show current ++ ' ' :: normSentence s =
            current ++ [' '] ++ normSentence s by simp]
          rw [eraseSep_append, eraseSep_append,
            eraseSep_of_all_space [' '] (by decide), eraseSep_normSentence]
          simp [List.flatten_cons, eraseSep_append]

theorem finalizePhases_content (m : Nat) : ∀ (phases : List (List Char)),
    eraseSep (List.flatten (finalizePhases m phases)) =
      eraseSep (List.flatten phases) := by
  intro phases
  induction phases with
  | nil => rfl
  | cons p rest ih =>
    unfold finalizePhases at ih ⊢
    rw [List.flatMap_cons, List.flatten_append, eraseSep_append, ih,
      List.flatten_cons, eraseSep_append]
    by_cases hlong : 2 * p.length > 3 * m
    · rw [if_pos hlong, wordChunks_content m (pySplit p) [], pySplit_content]
      simp [eraseSep_nil]
    · rw [if_neg hlong]
      simp

/-- Claim C3: concatenating the phases returned by
`_split_text_into_phases` preserves all of the input's sentence content:
with the separator characters the splitter manipulates (whitespace and
sentence-terminal punctuation) ignored, the concatenation of the output
phases equals the original text. -/
theorem split_preserves_content (maxChars : Nat) (text : List Char) :
    eraseSep (List.flatten (split_text_into_phases maxChars text)) =
      eraseSep text := by
  unfold split_text_into_phases
  rw [finalizePhases_content, accumPhases_content, reSplitSentences_content]
  rfl

theorem combine_list_eq_intersperse (gap : List ℚ) :
    ∀ segs : List AudioSegment,
      combine_list gap segs = (segs.map AudioSegment.audio_data).intersperse gap
  | [] => by simp [combine_list, List.intersperse]
  | [s] => by simp [combine_list, List.intersperse]
  | s :: t :: rest => by
    rw [show combine_list gap (s :: t :: rest) =
          s.audio_data :: gap :: combine_list gap (t :: rest) from rfl,
      combine_list_eq_intersperse gap (t :: rest)]
    simp [List.intersperse]

theorem combine_list_flatten_length (gap : List ℚ) :
    ∀ segs : List AudioSegment, segs ≠ [] →
      (List.flatten (combine_list gap segs)).length =
        (segs.map fun s => s.audio_data.length).sum +
          (segs.length - 1) * gap.length
  | [], h => absurd rfl h
  | [s], _ => by simp [combine_list]
  | s :: t :: rest, _ => by
    have ih := combine_list_flatten_length gap (t :: rest) (by simp)
    rw [show combine_list gap (s :: t :: rest) =
          s.audio_data :: gap :: combine_list gap (t :: rest) from rfl]
    simp only [List.flatten_cons, List.length_append]
    rw [ih]
    simp only [List.map_cons, List.sum_cons, List.length_cons,
      Nat.add_sub_cancel]
    ring

theorem combine_audio_segments_eq (pauseSamples : Nat)
    (segs : List AudioSegment) (dir : String) (h : segs ≠ []) :
    combine_audio_segments pauseSamples segs dir =
      some ((combine_list (List.replicate pauseSamples 0) segs).flatten,
        os_path_join dir "complete_podcast.wav") := by
  match segs, h with
  | s :: rest, _ => rfl

/-- Claim C5: on a non-empty segment list, `_combine_audio_segments`
produces the segments' waveforms concatenated in order with exactly one
silence gap of `pauseSamples` zeros between consecutive segments and none
after the last (the flattening of `List.intersperse`), so the output
sample count is the sum of the segment sample counts plus
`(n - 1) * pauseSamples`; the result is written to
`output_dir/complete_podcast.wav` and that path is returned. -/
theorem combine_segments_spec (pauseSamples : Nat) (segs : List AudioSegment)
    (dir : String) (h : segs ≠ []) :
    combine_audio_segments pauseSamples segs dir =
      some (((segs.map AudioSegment.audio_data).intersperse
          (List.replicate pauseSamples 0)).flatten,
        os_path_join dir "complete_podcast.wav") ∧
    (((segs.map AudioSegment.audio_data).intersperse
        (List.replicate pauseSamples 0)).flatten).length =
      (segs.map fun s => s.audio_data.length).sum +
        (segs.length - 1) * pauseSamples := by
  constructor
  · rw [combine_audio_segments_eq pauseSamples segs dir h,
      combine_list_eq_intersperse]
  · rw [← combine_list_eq_intersperse,
      combine_list_flatten_length _ segs h, List.length_replicate]

/-- Witness for C5 at a concrete two-segment list with a two-sample gap. -/
theorem combine_segments_spec_witness :
    ([⟨"a", "t", [1, 2], 0, "p"⟩, ⟨"b", "u", [3], 0, "q"⟩] ≠
      ([] : List AudioSegment)) ∧
    combine_audio_segments 2
        [⟨"a", "t", [1, 2], 0, "p"⟩, ⟨"b", "u", [3], 0, "q"⟩] "out" =
      some ((([⟨"a", "t", [1, 2], 0, "p"⟩,
          ⟨"b", "u", [3], 0, "q"⟩].map AudioSegment.audio_data).intersperse
            (List.replicate 2 0)).flatten,
        os_path_join "out" "complete_podcast.wav") :=
  ⟨by decide,
    (combine_segments_spec 2
      [⟨"a", "t", [1, 2], 0, "p"⟩, ⟨"b", "u", [3], 0, "q"⟩] "out"
      (by decide)).1⟩

theorem gen_segments_snd (line_synth : String → Option (List ℚ))
    (dir : String) (combine : Bool) (sr : ℚ) :
    ∀ (script : List (String × String)) (i : Nat),
      (gen_segments line_synth dir combine sr i script).2 =
        successful_segment_paths line_synth dir i script := by
  intro script
  induction script with
  | nil => intro i; rfl
  | cons hd tl ih =>
    intro i
    obtain ⟨sp, d⟩ := hd
    rw [gen_segments, successful_segment_paths]
    cases hsyn : line_synth d with
    | some wav => simp [hsyn, ih (i + 1)]
    | none => simp [hsyn, ih (i + 1)]

theorem gen_segments_fst_nil_iff (line_synth : String → Option (List ℚ))
    (dir : String) (sr : ℚ) :
    ∀ (script : List (String × String)) (i : Nat),
      ((gen_segments line_synth dir true sr i script).1 = [] ↔
        ¬ script.any fun l => (line_synth l.2).isSome) := by
  intro script
  induction script with
  | nil => intro i; simp [gen_segments]
  | cons hd tl ih =>
    intro i
    obtain ⟨sp, d⟩ := hd
    rw [gen_segments]
    cases hsyn : line_synth d with
    | some wav => simp [hsyn]
    | none => simp [hsyn, ih (i + 1)]

/-- Claim C6: per-line failures are skipped and the run continues:
for every script and synthesis oracle, `generate_podcast_audio` never
fails as a whole and returns exactly the segment paths of the lines whose
synthesis succeeded, in script order, plus the combined path last when
combination is enabled and at least one line succeeded. -/
theorem generate_partial_failure (line_synth : String → Option (List ℚ))
    (pauseSamples : Nat) (sr : ℚ) (script : List (String × String))
    (dir : String) :
    generate_podcast_audio line_synth pauseSamples sr script dir false =
      some (successful_segment_paths line_synth dir 0 script) ∧
    generate_podcast_audio line_synth pauseSamples sr script dir true =
      some (successful_segment_paths line_synth dir 0 script ++
        (if script.any (fun l => (line_synth l.2).isSome) then
          [os_path_join dir "complete_podcast.wav"] else [])) := by
  constructor
  · rw [generate_podcast_audio]
    simp [gen_segments_snd]
  · rw [generate_podcast_audio]
    by_cases hany : script.any fun l => (line_synth l.2).isSome
    · have hne : (gen_segments line_synth dir true sr 0 script).1 ≠ [] := by
        rw [ne_eq, gen_segments_fst_nil_iff]
        exact not_not_intro hany
      rw [if_pos ⟨rfl, hne⟩,
        combine_audio_segments_eq pauseSamples _ dir hne]
      simp [gen_segments_snd, hany]
    · have hnil : (gen_segments line_synth dir true sr 0 script).1 = [] :=
        (gen_segments_fst_nil_iff line_synth dir sr script 0).mpr hany
      rw [if_neg (by simp [hnil])]
      simp [gen_segments_snd, hany]

theorem successful_eq_expected (line_synth : String → Option (List ℚ))
    (dir : String) : ∀ (script : List (String × String)) (i : Nat),
    (∀ l ∈ script, (line_synth l.2).isSome) →
    successful_segment_paths line_synth dir i script =
      expected_segment_paths dir i script := by
  intro script
  induction script with
  | nil => intro i _; rfl
  | cons hd tl ih =>
    intro i hall
    obtain ⟨sp, d⟩ := hd
    rw [successful_segment_paths, expected_segment_paths,
      if_pos (hall (sp, d) (List.mem_cons_self _ _)), ih (i + 1)]
    intro l hl
    exact hall l (List.mem_cons_of_mem _ hl)

theorem expected_segment_paths_length (dir : String) :
    ∀ (script : List (String × String)) (i : Nat),
      (expected_segment_paths dir i script).length = script.length := by
  intro script
  induction script with
  | nil => intro i; rfl
  | cons hd tl ih =>
    intro i
    obtain ⟨sp, d⟩ := hd
    rw [expected_segment_paths]
    simp [ih (i + 1)]

/-- Claim C1 (amended): for every script with at least one narration line
on which every line's synthesis succeeds, `generate_podcast_audio` returns
the N per-line segment paths in script order followed by the
combined-podcast path (N + 1 paths) when `combine_audio` is true, and
exactly the N segment paths when it is false. -/
theorem generate_counts (line_synth : String → Option (List ℚ))
    (pauseSamples : Nat) (sr : ℚ) (script : List (String × String))
    (dir : String) (hne : script ≠ [])
    (hall : ∀ l ∈ script, (line_synth l.2).isSome) :
    generate_podcast_audio line_synth pauseSamples sr script dir true =
      some (expected_segment_paths dir 0 script ++
        [os_path_join dir "complete_podcast.wav"]) ∧
    generate_podcast_audio line_synth pauseSamples sr script dir false =
      some (expected_segment_paths dir 0 script) ∧
    (expected_segment_paths dir 0 script).length = script.length := by
  have hany : script.any (fun l => (line_synth l.2).isSome) = true := by
    obtain ⟨l0, hl0⟩ := List.exists_mem_of_ne_nil script hne
    exact List.any_eq_true.mpr ⟨l0, hl0, hall l0 hl0⟩
  obtain ⟨h1, h2⟩ := generate_partial_failure line_synth pauseSamples sr script dir
  refine ⟨?_, ?_, expected_segment_paths_length dir script 0⟩
  · rw [h2, if_pos hany, successful_eq_expected line_synth dir script 0 hall]
  · rw [h1, successful_eq_expected line_synth dir script 0 hall]

/-- Witness for the amended C1 at a concrete one-line script. -/
theorem generate_counts_witness :
    ([("Host", "hello")] ≠ ([] : List (String × String))) ∧
    (∀ l ∈ [("Host", "hello")],
      ((fun _ => some ([1] : List ℚ)) l.2).isSome) ∧
    generate_podcast_audio (fun _ => some [1]) 4800 24000
        [("Host", "hello")] "out" true =
      some (expected_segment_paths "out" 0 [("Host", "hello")] ++
        [os_path_join "out" "complete_podcast.wav"]) :=
  ⟨by decide, by decide,
    (generate_counts (fun _ => some [1]) 4800 24000 [("Host", "hello")] "out"
      (by decide) (by decide)).1⟩

/-- Counterexample to C1 as stated: for the empty script (N = 0 narration
lines, so every line vacuously succeeds) with combination enabled, the
code returns 0 paths, not N + 1 = 1: `audio_segments` is empty, so the
combined file is never produced. -/
theorem generate_counts_cex :
    Option.map List.length
        (generate_podcast_audio (fun _ => some [1]) 4800 24000 []
          "outputs/podcast_audio" true) = some 0 ∧
    (0 : Nat) ≠ 0 + 1 :=
  ⟨rfl, by decide⟩

/-- Claim C7: `set_reference_audio` raises exactly when the file is
missing; the raising path leaves the stored reference path unchanged; a
successful call stores the path, and a second successful call replaces
the first, leaving only the second active. -/
theorem set_reference_audio_spec (fileExists : String → Bool)
    (audio_path : String) (st : ChatterboxState) :
    ((set_reference_audio fileExists audio_path st).1.isSome ↔
      fileExists audio_path = false) ∧
    (fileExists audio_path = false →
      (set_reference_audio fileExists audio_path st).2 = st) ∧
    (fileExists audio_path = true →
      (set_reference_audio fileExists audio_path st).2.reference_audio_path =
        some audio_path) ∧
    (∀ (p1 p2 : String) (st0 : ChatterboxState),
      fileExists p1 = true → fileExists p2 = true →
      (set_reference_audio fileExists p2
          (set_reference_audio fileExists p1 st0).2).2.reference_audio_path =
        some p2) := by
  refine ⟨?_, ?_, ?_, ?_⟩
  · unfold set_reference_audio
    cases h : fileExists audio_path <;> simp [h]
  · intro h
    unfold set_reference_audio
    simp [h]
  · intro h
    unfold set_reference_audio
    simp [h]
  · intro p1 p2 st0 h1 h2
    unfold set_reference_audio
    simp [h1, h2]

/-- Witness for C7: with both files present, two successive calls leave
only the second path active. -/
theorem set_reference_audio_spec_witness :
    ((fun s => s = "a.wav" || s = "b.wav") "a.wav" = true) ∧
    ((fun s => s = "a.wav" || s = "b.wav") "b.wav" = true) ∧
    (set_reference_audio (fun s => s = "a.wav" || s = "b.wav") "b.wav"
        (set_reference_audio (fun s => s = "a.wav" || s = "b.wav") "a.wav"
          ⟨none⟩).2).2.reference_audio_path = some "b.wav" :=
  ⟨by decide, by decide,
    (set_reference_audio_spec (fun s => s = "a.wav" || s = "b.wav") "x"
      ⟨none⟩).2.2.2 "a.wav" "b.wav" ⟨none⟩ (by decide) (by decide)⟩

/-- Claim C8: if the load fails on the resolved device and that device is
not the CPU fallback, the load is retried exactly once on `"cpu"` and
construction succeeds with the engine's device set to `"cpu"`; if the
CPU load fails (originally resolved or retried), construction fails. -/
theorem chatterbox_init_fallback {μ : Type}
    (from_pretrained : String → Option μ) (device : String)
    (torch_load0 : TorchLoadFn) :
    (from_pretrained device = none → device ≠ "cpu" →
      ∀ m : μ, from_pretrained "cpu" = some m →
        (chatterbox_init from_pretrained device torch_load0).outcome =
          Except.ok (m, "cpu")) ∧
    (from_pretrained device = none → from_pretrained "cpu" = none →
      (chatterbox_init from_pretrained device torch_load0).outcome =
        Except.error ()) := by
  constructor
  · intro hdev hne m hcpu
    unfold chatterbox_init
    simp [hdev, hne, hcpu]
  · intro hdev hcpu
    unfold chatterbox_init
    by_cases h : device = "cpu"
    · subst h
      simp [hcpu]
    · simp [hdev, h, hcpu]

/-- Witness for C8: a load oracle failing on `"cuda"` and succeeding on
`"cpu"` yields a successful construction on the fallback device. -/
theorem chatterbox_init_fallback_witness :
    ((fun d => if d = "cpu" then some (7 : Nat) else none) "cuda" = none) ∧
    ("cuda" : String) ≠ "cpu" ∧
    ((fun d => if d = "cpu" then some (7 : Nat) else none) "cpu" = some 7) ∧
    (chatterbox_init (fun d => if d = "cpu" then some (7 : Nat) else none)
        "cuda" TorchLoadFn.original).outcome = Except.ok (7, "cpu") :=
  ⟨rfl, by decide, rfl,
    (chatterbox_init_fallback (fun d => if d = "cpu" then some (7 : Nat) else none)
      "cuda" TorchLoadFn.original).1 rfl (by decide) 7 rfl⟩

/-- Claim C9: the checkpoint-loading patch is installed before the load
call (after `_apply_device_fixes`, `torch.load` is the patched closure and
the original is saved) and on every construction path — success, fallback
success, or fatal failure — the `finally` block restores `torch.load` to
its original value. -/
theorem torch_load_patch_scoped {μ : Type}
    (from_pretrained : String → Option μ) (device : String)
    (torch_load0 : TorchLoadFn) :
    (apply_device_fixes device torch_load0).2 = TorchLoadFn.patched device ∧
    (apply_device_fixes device torch_load0).1 = some torch_load0 ∧
    (chatterbox_init from_pretrained device torch_load0).torch_load_after =
      torch_load0 :=
  ⟨rfl, rfl, rfl⟩

